import Mathlib

/-!
Verification of the registration-export pipeline (generate_listing.py).

Python strings are modelled as lists of characters (`PStr`), Python values
as the inductive `PyVal` (strings, numbers, booleans, None, lists, dicts
as insertion-ordered association lists).  Code that can raise a Python
exception is modelled in `Except String`.  Each definition mirrors one
function of the source file.
-/

/-- A Python string: a sequence of code points. -/
abbrev PStr := List Char

/-- Shorthand turning a Lean string literal into a `PStr`. -/
def ps (s : String) : PStr := s.data

/-- A Python value, as manipulated by the script: strings, numbers,
booleans, `None`, lists, and dicts (insertion-ordered key/value lists). -/
inductive PyVal where
  | str : PStr → PyVal
  | int : Int → PyVal
  | bool : Bool → PyVal
  | none : PyVal
  | list : List PyVal → PyVal
  | dict : List (PStr × PyVal) → PyVal
deriving Repr

instance : Inhabited PyVal := ⟨PyVal.none⟩

/-- A raw registration: a Python dict from field names to values
(one item of the DynamoDB scan). -/
abbrev Reg := List (PStr × PyVal)

/-- Python `k in d` / `d[k]` on a dict: first binding for the key. -/
def alookup {α : Type} (k : PStr) : List (PStr × α) → Option α
  | [] => Option.none
  | (k', v) :: rest => if k' = k then some v else alookup k rest

/-- Python truthiness (`if value:`) for the modelled values. -/
def pyTruthy : PyVal → Bool
  | .str s => !s.isEmpty
  | .int n => decide (n ≠ 0)
  | .bool b => b
  | .none => false
  | .list l => !l.isEmpty
  | .dict kvs => !kvs.isEmpty

-- Nesting depth of a value (used as the recursion bound for
-- `extract_dynamodb_value`, whose Python original recurses through the
-- payload of a list tag).
mutual
def pyDepth : PyVal → Nat
  | .str _ => 0
  | .int _ => 0
  | .bool _ => 0
  | .none => 0
  | .list l => 1 + pyDepthL l
  | .dict kvs => 1 + pyDepthKV kvs
def pyDepthL : List PyVal → Nat
  | [] => 0
  | v :: vs => Nat.max (pyDepth v) (pyDepthL vs)
def pyDepthKV : List (PStr × PyVal) → Nat
  | [] => 0
  | (_, v) :: kvs => Nat.max (pyDepth v) (pyDepthKV kvs)
end

/-- Python iteration (`for x in v` / `list(v)`): strings yield their
one-character strings, lists their elements, dicts their keys; other
values are not iterable (`TypeError`). -/
def pyIter : PyVal → Option (List PyVal)
  | .str s => some (s.map (fun c => PyVal.str [c]))
  | .list l => some l
  | .dict kvs => some (kvs.map (fun p => PyVal.str p.1))
  | _ => Option.none

/-- Sequencing of a Python list comprehension over fallible elements:
the first exception aborts the whole comprehension. -/
def seqE : List (Except String PyVal) → Except String (List PyVal)
  | [] => .ok []
  | .error e :: _ => .error e
  | .ok v :: rest => (seqE rest).map (fun l => v :: l)

/-- `extract_dynamodb_value`, with an explicit recursion bound (the
Python original recurses through the payload found under the `L` tag;
`extract_dynamodb_value` below instantiates the bound with the value's
depth, which `extractFuel_eq_of_depth_lt` shows is enough). -/
def extractFuel : Nat → PyVal → Except String PyVal
  | 0, _ => .error "recursion limit"
  | fuel + 1, v =>
    match v with
    | PyVal.dict kvs =>
      match alookup (ps "S") kvs with
      | some s => .ok s
      | Option.none =>
        match alookup (ps "N") kvs with
        | some n => .ok n
        | Option.none =>
          match alookup (ps "BOOL") kvs with
          | some b => .ok b
          | Option.none =>
            match alookup (ps "L") kvs with
            | some lv =>
              match pyIter lv with
              | some items => (seqE (items.map (extractFuel fuel))).map PyVal.list
              | Option.none => .error "TypeError: value is not iterable"
            | Option.none =>
              match alookup (ps "SS") kvs with
              | some sv =>
                match pyIter sv with
                | some items => .ok (PyVal.list items)
                | Option.none => .error "TypeError: value is not iterable"
              | Option.none =>
                match alookup (ps "NS") kvs with
                | some nv =>
                  match pyIter nv with
                  | some items => .ok (PyVal.list items)
                  | Option.none => .error "TypeError: value is not iterable"
                | Option.none =>
                  match kvs with
                  | [] => .ok PyVal.none
                  | (_, v0) :: _ => .ok v0
    | v => .ok v

/-- `extract_dynamodb_value(value)` of the source: unwrap a DynamoDB
type descriptor (`S`, `N`, `BOOL`, `L`, `SS`, `NS`, unknown dict,
non-dict). -/
def extract_dynamodb_value (v : PyVal) : Except String PyVal :=
  extractFuel (pyDepth v + 1) v

/-- Python whitespace, as stripped by `str.strip()` (the characters the
script's data can contain). -/
def pyWhitespace (c : Char) : Bool :=
  c = ' ' || c = '\t' || c = '\n' || c = '\r' || c = '\x0b' || c = '\x0c'

/-- `str.lstrip()`. -/
def lstripChars (s : PStr) : PStr := s.dropWhile pyWhitespace

/-- `str.rstrip()`. -/
def rstripChars (s : PStr) : PStr := (s.reverse.dropWhile pyWhitespace).reverse

/-- `str.strip()`. -/
def strip (s : PStr) : PStr := rstripChars (lstripChars s)

/-- `str.upper()` (the data is ASCII where this matters). -/
def upper (s : PStr) : PStr := s.map Char.toUpper

/-- `str.capitalize()`: first character uppercased, the rest lowercased. -/
def pyCapitalize : PStr → PStr
  | [] => []
  | c :: rest => c.toUpper :: rest.map Char.toLower

/-- Lexicographic (code-point) `<=` on Python strings, the order used by
`sorted` and `list.sort`. -/
def strLe : PStr → PStr → Bool
  | [], _ => true
  | _ :: _, [] => false
  | a :: as, b :: bs => if a < b then true else if b < a then false else strLe as bs

/-- `strLe` as a relation, for the sorting lemmas. -/
def strLeP : PStr → PStr → Prop := fun a b => strLe a b = true

instance : DecidableRel strLeP := fun a b => inferInstanceAs (Decidable (strLe a b = true))

/-- Python `sorted` on a list of strings (a stable sort by `strLe`;
insertion sort is extensionally equal to it on a total preorder). -/
def sortStr (l : List PStr) : List PStr := List.insertionSort strLeP l

/-- The delimiters of the games field: comma, newline, semicolon
(the regex `[,\n;]+` of the source). -/
def isDelim (c : Char) : Bool := c = ',' || c = '\n' || c = ';'

/-- `re.split(r'[,\n;]+', s)`: split on maximal runs of delimiters,
keeping the (possibly empty) fragments between runs. -/
def splitDelim : PStr → List PStr
  | [] => [[]]
  | c :: rest =>
    let toks := splitDelim rest
    if isDelim c then
      match rest with
      | [] => [] :: toks
      | r0 :: _ => if isDelim r0 then toks else [] :: toks
    else
      match toks with
      | [] => [[c]]
      | t :: ts => (c :: t) :: ts

/-- Escaping used by Python `repr` on the common characters. -/
def reprEscChar (c : Char) : PStr :=
  if c = '\\' then ['\\', '\\']
  else if c = '\'' then ['\\', '\'']
  else if c = '\n' then ['\\', 'n']
  else if c = '\r' then ['\\', 'r']
  else if c = '\t' then ['\\', 't']
  else [c]

/-- Escaping of a whole string for `repr`. -/
def reprEsc (s : PStr) : PStr := (s.map reprEscChar).flatten

/-- Decimal rendering of an integer. -/
def intToStr (n : Int) : PStr := (toString n).data

-- Python `repr`, for the values the script can meet (`str()` of a list
-- or dict renders its elements with `repr`).
mutual
def pyRepr : PyVal → PStr
  | .str s => '\'' :: (reprEsc s ++ ['\''])
  | .int n => intToStr n
  | .bool true => ps "True"
  | .bool false => ps "False"
  | .none => ps "None"
  | .list l => '[' :: (pyReprList l ++ [']'])
  | .dict kvs => Char.ofNat 123 :: (pyReprDict kvs ++ [Char.ofNat 125])
def pyReprList : List PyVal → PStr
  | [] => []
  | [v] => pyRepr v
  | v :: vs => pyRepr v ++ ps ", " ++ pyReprList vs
def pyReprDict : List (PStr × PyVal) → PStr
  | [] => []
  | [(k, v)] => ('\'' :: (reprEsc k ++ ['\''])) ++ ps ": " ++ pyRepr v
  | (k, v) :: kvs =>
    ('\'' :: (reprEsc k ++ ['\''])) ++ ps ": " ++ pyRepr v ++ ps ", " ++ pyReprDict kvs
end

/-- Python `str(value)`: a string is itself, anything else as `repr`
renders it (`str` and `repr` agree on numbers, booleans, `None`, lists
and dicts). -/
def pyStr : PyVal → PStr
  | .str s => s
  | v => pyRepr v

/-- `capitalize_name(name)` of the source (always called on a `str`). -/
def capitalize_name (name : PStr) : PStr :=
  if name = [] then name else pyCapitalize name

/-- The fallback name fields probed when `nomeCompleto` yields nothing,
in source order. -/
def nameFallbackFields : List PStr :=
  [ps "name", ps "userName", ps "user_name", ps "nome", ps "username",
   ps "Name", ps "UserName"]

/-- The fallback loop of the name extraction: walks the fields, keeps
the last extracted value, stops at the first truthy one. -/
def probeFields : List PStr → Reg → PyVal → Except String PyVal
  | [], _, acc => .ok acc
  | f :: fs, reg, acc =>
    match alookup f reg with
    | some v => do
      let u ← extract_dynamodb_value v
      if pyTruthy u then .ok u else probeFields fs reg u
    | Option.none => probeFields fs reg acc

/-- Name resolution shared by `process_registrations`,
`generate_gamers_list` and `generate_attendance_pdf`: try
`nomeCompleto`, then the fallback fields; a falsy final value means the
registration contributes no attendee, otherwise the value is rendered
with `str` and capitalized. -/
def resolveName (reg : Reg) : Except String (Option PStr) :=
  (match alookup (ps "nomeCompleto") reg with
   | some v => extract_dynamodb_value v
   | Option.none => Except.ok PyVal.none) >>= fun u0 =>
  (if pyTruthy u0 then Except.ok u0 else probeFields nameFallbackFields reg u0) >>=
    fun u =>
  if pyTruthy u then Except.ok (some (capitalize_name (pyStr u)))
  else Except.ok Option.none

/-- Parsing of the extracted `jogos` value: only strings are parsed;
strip, drop empty and case-insensitive `N/A`, split on delimiter runs,
strip each token, drop empty tokens. -/
def parseGames (gamesRaw : PyVal) : List PStr :=
  match gamesRaw with
  | .str s0 =>
    let s := strip s0
    if s ≠ [] ∧ upper s ≠ ps "N/A" then
      ((splitDelim s).filter (fun g => strip g ≠ [])).map strip
    else []
  | _ => []

/-- The games of one registration: extract the `jogos` field if present
and parse it. -/
def regGames (reg : Reg) : Except String (List PStr) :=
  match alookup (ps "jogos") reg with
  | some v => do
    let raw ← extract_dynamodb_value v
    pure (parseGames raw)
  | Option.none => pure []

/-- The per-user game map built by `process_registrations`
(`defaultdict(list)`, insertion-ordered). -/
abbrev UG := List (PStr × List PStr)

/-- Read `user_games[name]` (a `defaultdict(list)` read). -/
def dGet (ug : UG) (k : PStr) : List PStr :=
  match alookup k ug with
  | some l => l
  | Option.none => []

/-- Write `user_games[name] = l` (replace the binding or append it). -/
def dSet (ug : UG) (k : PStr) (l : List PStr) : UG :=
  match ug with
  | [] => [(k, l)]
  | (k', l') :: rest => if k' = k then (k, l) :: rest else (k', l') :: dSet rest k l

/-- The body of the per-game loop of `process_registrations`:
`game_str = str(game).strip()`; append it to the user's list when it is
non-empty and not already present. -/
def addGame (ug : UG) (name : PStr) (game : PStr) : UG :=
  let gameStr := strip game
  if gameStr ≠ [] ∧ gameStr ∉ dGet ug name then
    dSet ug name (dGet ug name ++ [gameStr])
  else ug

/-- Processing of one registration: resolve the name (skip the
registration if none), parse the games, and only when the parsed list is
non-empty add its games to the user's list. -/
def processReg (ug : UG) (reg : Reg) : Except String UG := do
  match ← resolveName reg with
  | Option.none => pure ug
  | some name => do
    let games ← regGames reg
    if games = [] then pure ug
    else pure (games.foldl (fun u g => addGame u name g) ug)

/-- The fold of `process_registrations` over the registrations. -/
def processRegsFrom : UG → List Reg → Except String UG
  | ug, [] => .ok ug
  | ug, reg :: rest => do
    let ug' ← processReg ug reg
    processRegsFrom ug' rest

/-- `process_registrations(registrations)` of the source. -/
def process_registrations (regs : List Reg) : Except String UG :=
  processRegsFrom [] regs

/-- The hardcoded fixed games list of `generate_listing`. -/
def fixed_games : List PStr :=
  [ps "Joga Junto", ps "Mind Invaders", ps "Amazoom", ps "Frost Shelter",
   ps "Pool Party", ps "Azul", ps "Dixit", ps "Scrap Racer",
   ps "Beaver Creek", ps "Yozu", ps "Café da tarde", ps "Dobrões",
   ps "Carcasone", ps "Caveiras de Sedlec", ps "Codinames", ps "Bugô",
   ps "Balde de caranguejo.", ps "Não testamos esse troço/cinético",
   ps "Lálálá", ps "Sapotagem", ps "Cultive", ps "Exploding Kittens",
   ps "Revelando Emoções", ps "Dobble", ps "Coup", ps "O Cerco de Runedar",
   ps "Dogs"]

/-- One line of the games listing file: a user header (`- name`),
a numbered game (`   n) game`), or a blank separator. -/
inductive LLine where
  | header : PStr → LLine
  | game : Nat → PStr → LLine
  | blank : LLine
deriving Repr

/-- The numbered lines written for one block of games, starting at the
given counter value. -/
def gameLines : Nat → List PStr → List LLine
  | _, [] => []
  | c, g :: gs => LLine.game c g :: gameLines (c + 1) gs

/-- The per-user loop of `generate_listing`: for each user a header,
their games sorted and numbered by the running counter, then a blank
line; returns the lines and the counter after the loop. -/
def userBlocks : Nat → List PStr → UG → List LLine × Nat
  | c, [], _ => ([], c)
  | c, u :: us, ug =>
    let sg := sortStr (dGet ug u)
    let rest := userBlocks (c + sg.length) us ug
    (LLine.header u :: (gameLines c sg ++ [LLine.blank]) ++ rest.1, rest.2)

/-- The structured lines of the games listing file: sorted users with
their numbered games, then the fixed catalog under its synthetic header,
the counter running on without reset. -/
def listingLines (ug : UG) : List LLine :=
  let users := sortStr (ug.map Prod.fst)
  let lsc := userBlocks 1 users ug
  if fixed_games ≠ [] then
    lsc.1 ++ (LLine.header (ps "Joga Junto (Jogos da Casa)") ::
      (gameLines lsc.2 fixed_games ++ [LLine.blank]))
  else lsc.1

/-- Rendering of one structured line exactly as `generate_listing`
writes it. -/
def renderLLine : LLine → PStr
  | .header u => ps "- " ++ u ++ ['\n']
  | .game n g => ps "   " ++ (toString n).data ++ ps ") " ++ g ++ ['\n']
  | .blank => ['\n']

/-- `generate_listing(user_games)` of the source: the full text written
to the games listing file. -/
def generate_listing (ug : UG) : PStr :=
  ((listingLines ug).map renderLLine).flatten

/-- The participant-collecting step of `generate_gamers_list`: resolve
the name and append it when it is new. -/
def gamerStep (acc : List PStr) (reg : Reg) : Except String (List PStr) := do
  match ← resolveName reg with
  | some n => pure (if n ∈ acc then acc else acc ++ [n])
  | Option.none => pure acc

/-- The fold of `generate_gamers_list` over the registrations. -/
def gamersFrom : List PStr → List Reg → Except String (List PStr)
  | acc, [] => .ok acc
  | acc, reg :: rest => do
    let acc' ← gamerStep acc reg
    gamersFrom acc' rest

/-- The deduplicated participants of `generate_gamers_list`, in first
occurrence order (before the final sort). -/
def gamersParticipants (regs : List Reg) : Except String (List PStr) :=
  gamersFrom [] regs

/-- `generate_gamers_list(registrations)` of the source: the participant
names, sorted, one per line. -/
def generate_gamers_list (regs : List Reg) : Except String PStr := do
  let parts ← gamersParticipants regs
  pure (((sortStr parts).map (fun p => p ++ ['\n'])).flatten)

/-- The preferred CSV column order of `generate_csv`. -/
def common_fields : List PStr :=
  [ps "id", ps "nomeCompleto", ps "email", ps "celular", ps "cidade",
   ps "dataNascimento", ps "edicao", ps "jogos", ps "possuiJogos",
   ps "interesseRPG", ps "status", ps "createdAt", ps "instagram",
   ps "protecaoDados", ps "usoImagem"]

/-- `reg.keys()`. -/
def regKeys (reg : Reg) : List PStr := reg.map Prod.fst

/-- Adding one element to the model of a Python set (a duplicate-free
list; the enumeration order of the real set is arbitrary, see the
determinism theorem). -/
def setAdd (acc : List PStr) (k : PStr) : List PStr :=
  if k ∈ acc then acc else acc ++ [k]

/-- `all_fields`: the union of the field names of all registrations. -/
def allFieldsList (regs : List Reg) : List PStr :=
  regs.foldl (fun acc reg => (regKeys reg).foldl setAdd acc) []

/-- `ordered_fields` computed from an enumeration of `all_fields`: the
common fields that are present, in preferred order, then the remaining
fields sorted. -/
def orderedFieldsFrom (allF : List PStr) : List PStr :=
  common_fields.filter (fun f => decide (f ∈ allF)) ++
    sortStr (allF.filter (fun f => decide (f ∉ common_fields)))

/-- Rendering of one extracted value into a CSV cell: booleans as their
textual form, lists joined with `; `, `None` as the empty string,
anything else with `str`. -/
def csvCell (v : PyVal) : PStr :=
  match v with
  | .bool b => pyStr (.bool b)
  | .list l => (ps "; ").intercalate (l.map pyStr)
  | .none => []
  | v => pyStr v

/-- One CSV cell: extract the field's value when the field is present,
otherwise the empty string. -/
def csvCellE (reg : Reg) (f : PStr) : Except String PStr :=
  match alookup f reg with
  | some v => extract_dynamodb_value v >>= fun u => Except.ok (csvCell u)
  | Option.none => Except.ok []

/-- The cells of one CSV row, one per ordered field. -/
def csvRowCells : List PStr → Reg → Except String (List PStr)
  | [], _ => .ok []
  | f :: fs, reg =>
    csvCellE reg f >>= fun cell =>
    csvRowCells fs reg >>= fun rest => Except.ok (cell :: rest)

/-- The rows of the CSV, one per registration in input order. -/
def csvRows (fields : List PStr) : List Reg → Except String (List (List PStr))
  | [] => .ok []
  | reg :: rest =>
    csvRowCells fields reg >>= fun row =>
    csvRows fields rest >>= fun rows => Except.ok (row :: rows)

/-- The CSV computed from a given enumeration of the field set:
the header and the data rows. -/
def generate_csvWith (allF : List PStr) (regs : List Reg) :
    Except String (List PStr × List (List PStr)) :=
  csvRows (orderedFieldsFrom allF) regs >>= fun rows =>
    Except.ok (orderedFieldsFrom allF, rows)

/-- `generate_csv(registrations)` of the source: on an empty input print
a diagnostic to stderr and return without writing the file; otherwise
write the header and rows.  Result: the stderr lines and the optional
file content. -/
def generate_csv (regs : List Reg) :
    Except String (List PStr × Option (List PStr × List (List PStr))) :=
  if regs.isEmpty then .ok ([ps "No registrations to export."], Option.none)
  else generate_csvWith (allFieldsList regs) regs >>= fun out =>
    Except.ok ([], some out)

/-- The data-dependent artifacts of `main`, produced in its order:
games listing, gamers list, CSV, attendance participants (the PDF's
table rows are the same deduplicated sorted names). -/
def runPipeline (regs : List Reg) :
    Except String (PStr × PStr × (List PStr × Option (List PStr × List (List PStr))) × List PStr) := do
  let ug ← process_registrations regs
  let listing := generate_listing ug
  let gamers ← generate_gamers_list regs
  let csvOut ← generate_csv regs
  let parts ← gamersParticipants regs
  pure (listing, gamers, csvOut, sortStr parts)

/-- Whether an `Except` computation succeeded (no exception raised). -/
def isOkE {α : Type} : Except String α → Bool
  | .ok _ => true
  | .error _ => false

/-- The six recognized DynamoDB type-descriptor keys. -/
def tagKeys : List PStr := [ps "S", ps "N", ps "BOOL", ps "L", ps "SS", ps "NS"]

/-- Whether a dict carries any recognized type-descriptor key. -/
def hasTagKey (kvs : List (PStr × PyVal)) : Bool :=
  kvs.any (fun p => decide (p.1 ∈ tagKeys))

-- A value is free of type-descriptor wrappers when no dict anywhere in
-- it carries a recognized descriptor key (the spec's "no remaining tag
-- wrapper").
mutual
def tagFree : PyVal → Bool
  | .str _ => true
  | .int _ => true
  | .bool _ => true
  | .none => true
  | .list l => tagFreeL l
  | .dict kvs => !hasTagKey kvs && tagFreeKV kvs
def tagFreeL : List PyVal → Bool
  | [] => true
  | v :: vs => tagFree v && tagFreeL vs
def tagFreeKV : List (PStr × PyVal) → Bool
  | [] => true
  | (_, v) :: kvs => tagFree v && tagFreeKV kvs
end

/-- Whether a value is a dict. -/
def isDict : PyVal → Bool
  | .dict _ => true
  | _ => false

/-- Whether a value is a list. -/
def isList : PyVal → Bool
  | .list _ => true
  | _ => false

-- The attribute shapes enumerated by the specification: scalar tags
-- with any payload, a list tag whose payload is a list of attribute
-- values, set tags with list payloads, dicts with no recognized tag
-- key, and untagged non-dict values.
mutual
def isAttr : PyVal → Bool
  | .dict [(k, v)] =>
    if k = ps "S" ∨ k = ps "N" ∨ k = ps "BOOL" then true
    else if k = ps "L" then isAttrPayload v
    else if k = ps "SS" ∨ k = ps "NS" then isList v
    else true
  | .dict kvs => !hasTagKey kvs
  | _ => true
def isAttrPayload : PyVal → Bool
  | .list items => isAttrL items
  | _ => false
def isAttrL : List PyVal → Bool
  | [] => true
  | v :: vs => isAttr v && isAttrL vs
end

theorem strLe_total : ∀ a b : PStr, strLe a b = true ∨ strLe b a = true
  | [], _ => Or.inl rfl
  | _ :: _, [] => Or.inr rfl
  | a :: as, b :: bs => by
    rcases lt_trichotomy a b with h | h | h
    · left; simp [strLe, h]
    · subst h
      rcases strLe_total as bs with ih | ih
      · left; simp [strLe, lt_self_iff_false, ih]
      · right; simp [strLe, lt_self_iff_false, ih]
    · right; simp [strLe, h]

theorem strLe_trans : ∀ a b c : PStr,
    strLe a b = true → strLe b c = true → strLe a c = true
  | [], _, _, _, _ => rfl
  | _ :: _, [], _, h1, _ => by simp [strLe] at h1
  | _ :: _, _ :: _, [], _, h2 => by simp [strLe] at h2
  | a :: as, b :: bs, c :: cs, h1, h2 => by
    rcases lt_trichotomy a b with hab | hab | hab
    · rcases lt_trichotomy b c with hbc | hbc | hbc
      · simp [strLe, lt_trans hab hbc]
      · subst hbc; simp [strLe, hab]
      · simp [strLe, asymm hbc, hbc] at h2
    · subst hab
      simp only [strLe, if_neg (lt_irrefl a)] at h1 h2
      rcases lt_trichotomy a c with hac | hac | hac
      · simp [strLe, hac]
      · subst hac; simp only [strLe, if_neg (lt_irrefl a)] at h2 ⊢
        exact strLe_trans as bs cs h1 h2
      · simp [asymm hac, hac] at h2
    · simp [strLe, asymm hab, hab] at h1

theorem strLe_antisymm : ∀ a b : PStr,
    strLe a b = true → strLe b a = true → a = b
  | [], [], _, _ => rfl
  | [], _ :: _, _, h2 => by simp [strLe] at h2
  | _ :: _, [], h1, _ => by simp [strLe] at h1
  | a :: as, b :: bs, h1, h2 => by
    rcases lt_trichotomy a b with hab | hab | hab
    · simp [strLe, asymm hab, hab] at h2
    · subst hab
      simp only [strLe, if_neg (lt_irrefl a)] at h1 h2
      rw [strLe_antisymm as bs h1 h2]
    · simp [strLe, asymm hab, hab] at h1

instance : IsTotal PStr strLeP := ⟨strLe_total⟩

instance : IsTrans PStr strLeP := ⟨strLe_trans⟩

instance : IsAntisymm PStr strLeP := ⟨strLe_antisymm⟩

theorem sortStr_perm (l : List PStr) : List.Perm (sortStr l) l :=
  List.perm_insertionSort strLeP l

theorem sortStr_sorted (l : List PStr) : List.Sorted strLeP (sortStr l) :=
  List.sorted_insertionSort strLeP l

theorem sortStr_mem {x : PStr} {l : List PStr} : x ∈ sortStr l ↔ x ∈ l :=
  (sortStr_perm l).mem_iff

theorem sortStr_length (l : List PStr) : (sortStr l).length = l.length :=
  (sortStr_perm l).length_eq

theorem sortStr_nodup {l : List PStr} (h : l.Nodup) : (sortStr l).Nodup :=
  (sortStr_perm l).nodup_iff.mpr h

theorem sortStr_eq_of_perm {l₁ l₂ : List PStr} (h : List.Perm l₁ l₂) :
    sortStr l₁ = sortStr l₂ :=
  List.eq_of_perm_of_sorted ((sortStr_perm l₁).trans (h.trans (sortStr_perm l₂).symm))
    (sortStr_sorted l₁) (sortStr_sorted l₂)

theorem dropWhile_idem (p : Char → Bool) :
    ∀ l : List Char, (l.dropWhile p).dropWhile p = l.dropWhile p
  | [] => rfl
  | c :: l => by
    by_cases h : p c = true
    · simp only [List.dropWhile_cons, h, if_true]
      exact dropWhile_idem p l
    · simp only [List.dropWhile_cons, h, if_false]
      simp [List.dropWhile_cons, h]

theorem lstrip_idem (s : PStr) : lstripChars (lstripChars s) = lstripChars s :=
  dropWhile_idem pyWhitespace s

theorem rstrip_idem (s : PStr) : rstripChars (rstripChars s) = rstripChars s := by
  unfold rstripChars
  rw [List.reverse_reverse, dropWhile_idem]

theorem lstrip_fixed_head {c : Char} {rest : PStr}
    (h : lstripChars (c :: rest) = c :: rest) : pyWhitespace c = false := by
  by_contra hc
  rw [Bool.not_eq_false] at hc
  unfold lstripChars at h
  rw [List.dropWhile_cons, if_pos hc] at h
  have := (List.dropWhile_sublist (l := rest) pyWhitespace).length_le
  rw [h] at this
  simp at this

theorem lstrip_rstrip (t : PStr) (h : lstripChars t = t) :
    lstripChars (rstripChars t) = rstripChars t := by
  cases t with
  | nil => rfl
  | cons c rest =>
    have hc : pyWhitespace c = false := lstrip_fixed_head h
    unfold rstripChars
    rw [List.reverse_cons, List.dropWhile_append]
    by_cases he : (List.dropWhile pyWhitespace rest.reverse).isEmpty = true
    · rw [if_pos he]
      simp only [List.dropWhile_cons, hc, if_false, List.dropWhile_nil]
      simp [lstripChars, List.dropWhile_cons, hc]
    · rw [if_neg he]
      rw [List.reverse_append]
      simp only [List.reverse_cons, List.reverse_nil, List.nil_append,
        List.singleton_append]
      simp [lstripChars, List.dropWhile_cons, hc]

theorem strip_idem (s : PStr) : strip (strip s) = strip s := by
  unfold strip
  rw [lstrip_rstrip (lstripChars s) (lstrip_idem s), rstrip_idem]

theorem strip_nonempty_strip {x : PStr} (hmem : strip x ≠ []) :
    strip (strip x) = strip x ∧ strip x ≠ [] :=
  ⟨strip_idem x, hmem⟩

/-- Every parsed game token is already stripped and non-empty. -/
theorem parseGames_mem {v : PyVal} {x : PStr} (hx : x ∈ parseGames v) :
    strip x = x ∧ x ≠ [] := by
  cases v with
  | str s0 =>
    simp only [parseGames] at hx
    by_cases hc : strip s0 ≠ [] ∧ upper (strip s0) ≠ ps "N/A"
    · rw [if_pos hc] at hx
      rcases List.mem_map.mp hx with ⟨g, hg, rfl⟩
      have hne := (List.mem_filter.mp hg).2
      refine ⟨strip_idem g, ?_⟩
      simpa using hne
    · rw [if_neg hc] at hx
      simp at hx
  | int n => simp [parseGames] at hx
  | bool b => simp [parseGames] at hx
  | none => simp [parseGames] at hx
  | list l => simp [parseGames] at hx
  | dict kvs => simp [parseGames] at hx

theorem alookup_depth {k : PStr} :
    ∀ {kvs : List (PStr × PyVal)} {v : PyVal},
      alookup k kvs = some v → pyDepth v ≤ pyDepthKV kvs
  | [], _, h => by simp [alookup] at h
  | (k', w) :: rest, v, h => by
    simp only [alookup] at h
    by_cases he : k' = k
    · rw [if_pos he] at h
      cases h
      simp only [pyDepthKV]
      exact Nat.le_max_left _ _
    · rw [if_neg he] at h
      simp only [pyDepthKV]
      exact le_trans (alookup_depth h) (Nat.le_max_right _ _)

theorem mem_depthL {x : PyVal} :
    ∀ {l : List PyVal}, x ∈ l → pyDepth x ≤ pyDepthL l
  | [], h => by simp at h
  | v :: vs, h => by
    rcases List.mem_cons.mp h with rfl | h
    · simp [pyDepthL]
    · exact le_trans (mem_depthL h) (by simp [pyDepthL])

theorem pyIter_depth {v : PyVal} {items : List PyVal} {x : PyVal}
    (hit : pyIter v = some items) (hx : x ∈ items) : pyDepth x ≤ pyDepth v := by
  cases v with
  | str s =>
    simp only [pyIter, Option.some.injEq] at hit
    subst hit
    rcases List.mem_map.mp hx with ⟨c, _, rfl⟩
    simp [pyDepth]
  | list l =>
    simp only [pyIter, Option.some.injEq] at hit
    subst hit
    exact le_trans (mem_depthL hx) (by simp [pyDepth])
  | dict kvs =>
    simp only [pyIter, Option.some.injEq] at hit
    subst hit
    rcases List.mem_map.mp hx with ⟨p, _, rfl⟩
    simp [pyDepth]
  | int n => simp [pyIter] at hit
  | bool b => simp [pyIter] at hit
  | none => simp [pyIter] at hit

/-- The recursion bound of `extractFuel` does not matter once it exceeds
the depth of the value: the function computes `extract_dynamodb_value`. -/
theorem extractFuel_eq_of_depth_lt (f₁ : Nat) :
    ∀ (f₂ : Nat) (v : PyVal), pyDepth v < f₁ → pyDepth v < f₂ →
      extractFuel f₁ v = extractFuel f₂ v := by
  induction f₁ with
  | zero => intro f₂ v h₁ _; omega
  | succ n₁ ih =>
    intro f₂ v h₁ h₂
    cases f₂ with
    | zero => omega
    | succ n₂ =>
      cases v with
      | str s => rfl
      | int n => rfl
      | bool b => rfl
      | none => rfl
      | list l => rfl
      | dict kvs =>
        simp only [extractFuel]
        repeat' split
        all_goals try rfl
        rename_i lv hL x items hIt
        have hkv : pyDepthKV kvs < n₁ ∧ pyDepthKV kvs < n₂ := by
          simp only [pyDepth] at h₁ h₂
          omega
        have hmap : items.map (extractFuel n₁) = items.map (extractFuel n₂) := by
          apply List.map_congr_left
          intro it hit
          have hd : pyDepth it ≤ pyDepthKV kvs :=
            le_trans (pyIter_depth hIt hit) (alookup_depth hL)
          exact ih n₂ it (by omega) (by omega)
        rw [hmap]

theorem seqE_ok_of_all {es : List (Except String PyVal)}
    (h : ∀ e ∈ es, isOkE e = true) : isOkE (seqE es) = true := by
  induction es with
  | nil => rfl
  | cons e rest ih =>
    cases e with
    | error msg => exact absurd (h _ (List.mem_cons_self _ _)) (by simp [isOkE])
    | ok v =>
      have := ih (fun e he => h e (List.mem_cons_of_mem _ he))
      simp only [seqE]
      cases hrest : seqE rest with
      | error msg => rw [hrest] at this; simp [isOkE] at this
      | ok l => simp [isOkE, Except.map]

theorem isAttrL_mem {items : List PyVal} {x : PyVal}
    (h : isAttrL items = true) (hx : x ∈ items) : isAttr x = true := by
  induction items with
  | nil => simp at hx
  | cons v vs ih =>
    simp only [isAttrL, Bool.and_eq_true] at h
    rcases List.mem_cons.mp hx with rfl | hx
    · exact h.1
    · exact ih h.2 hx

theorem alookup_eq_none {k : PStr} :
    ∀ {kvs : List (PStr × PyVal)}, (∀ p ∈ kvs, p.1 ≠ k) → alookup k kvs = Option.none
  | [], _ => rfl
  | (k', w) :: rest, h => by
    simp only [alookup]
    rw [if_neg (h (k', w) (List.mem_cons_self (k', w) rest))]
    exact alookup_eq_none (fun p hp => h p (List.mem_cons_of_mem _ hp))

theorem hasTagKey_false_lookup {kvs : List (PStr × PyVal)}
    (h : hasTagKey kvs = false) {k : PStr} (hk : k ∈ tagKeys) :
    alookup k kvs = Option.none := by
  apply alookup_eq_none
  intro p hp
  intro he
  have htrue : hasTagKey kvs = true := by
    unfold hasTagKey
    refine List.any_eq_true.mpr ⟨p, hp, ?_⟩
    rw [he]
    simpa using hk
  rw [htrue] at h
  simp at h

theorem nat_max_zero (a : Nat) : Nat.max a 0 = a := by simp

theorem isOkE_map {e : Except String (List PyVal)} {f : List PyVal → PyVal} :
    isOkE (Except.map f e) = isOkE e := by
  cases e <;> rfl

theorem extract_tag_S (v : PyVal) :
    extract_dynamodb_value (PyVal.dict [(ps "S", v)]) = .ok v := rfl

theorem extract_tag_N (v : PyVal) :
    extract_dynamodb_value (PyVal.dict [(ps "N", v)]) = .ok v := rfl

theorem extract_tag_BOOL (v : PyVal) :
    extract_dynamodb_value (PyVal.dict [(ps "BOOL", v)]) = .ok v := rfl

theorem extract_tag_SS (items : List PyVal) :
    extract_dynamodb_value (PyVal.dict [(ps "SS", PyVal.list items)]) =
      .ok (PyVal.list items) := rfl

theorem extract_tag_NS (items : List PyVal) :
    extract_dynamodb_value (PyVal.dict [(ps "NS", PyVal.list items)]) =
      .ok (PyVal.list items) := rfl

theorem extract_empty_dict :
    extract_dynamodb_value (PyVal.dict []) = .ok PyVal.none := rfl

theorem extract_tag_L (items : List PyVal) :
    extract_dynamodb_value (PyVal.dict [(ps "L", PyVal.list items)]) =
      (seqE (items.map extract_dynamodb_value)).map PyVal.list := by
  have h1 : extract_dynamodb_value (PyVal.dict [(ps "L", PyVal.list items)]) =
      (seqE (items.map
        (extractFuel (pyDepth (PyVal.dict [(ps "L", PyVal.list items)]))))).map
        PyVal.list := rfl
  have hmap : items.map
      (extractFuel (pyDepth (PyVal.dict [(ps "L", PyVal.list items)]))) =
      items.map extract_dynamodb_value := by
    apply List.map_congr_left
    intro it hit
    have hd : pyDepth it ≤ pyDepthL items := mem_depthL hit
    have hD : pyDepth (PyVal.dict [(ps "L", PyVal.list items)]) =
        1 + Nat.max (1 + pyDepthL items) 0 := rfl
    rw [nat_max_zero] at hD
    exact extractFuel_eq_of_depth_lt _ _ it (by omega) (by omega)
  rw [h1, hmap]

theorem extract_unknown_dict (k : PStr) (v : PyVal) (rest : List (PStr × PyVal))
    (h : hasTagKey ((k, v) :: rest) = false) :
    extract_dynamodb_value (PyVal.dict ((k, v) :: rest)) = .ok v := by
  have hS := hasTagKey_false_lookup h (show ps "S" ∈ tagKeys by simp [tagKeys])
  have hN := hasTagKey_false_lookup h (show ps "N" ∈ tagKeys by simp [tagKeys])
  have hB := hasTagKey_false_lookup h (show ps "BOOL" ∈ tagKeys by simp [tagKeys])
  have hL := hasTagKey_false_lookup h (show ps "L" ∈ tagKeys by simp [tagKeys])
  have hSS := hasTagKey_false_lookup h (show ps "SS" ∈ tagKeys by simp [tagKeys])
  have hNS := hasTagKey_false_lookup h (show ps "NS" ∈ tagKeys by simp [tagKeys])
  unfold extract_dynamodb_value
  simp only [extractFuel]
  rw [hS, hN, hB, hL, hSS, hNS]

theorem extract_nondict (v : PyVal) (h : isDict v = false) :
    extract_dynamodb_value v = .ok v := by
  cases v with
  | str s => rfl
  | int n => rfl
  | bool b => rfl
  | none => rfl
  | list l => rfl
  | dict kvs => simp [isDict] at h

theorem extractFuel_ok (fuel : Nat) :
    ∀ v, pyDepth v < fuel → isAttr v = true → isOkE (extractFuel fuel v) = true := by
  induction fuel with
  | zero => intro v h _; omega
  | succ n ih =>
    intro v hd hattr
    cases v with
    | str s => rfl
    | int n' => rfl
    | bool b => rfl
    | none => rfl
    | list l => rfl
    | dict kvs =>
      match kvs with
      | [] => rfl
      | [(k, w)] =>
        by_cases hS : k = ps "S"
        · subst hS; rfl
        by_cases hN : k = ps "N"
        · subst hN; rfl
        by_cases hB : k = ps "BOOL"
        · subst hB; rfl
        by_cases hL : k = ps "L"
        · subst hL
          have hattr' : isAttrPayload w = true := hattr
          cases w with
          | list items =>
            have hitems : isAttrL items = true := hattr'
            have hgoal : isOkE (extractFuel (n + 1)
                (PyVal.dict [(ps "L", PyVal.list items)])) =
                isOkE (seqE (items.map (extractFuel n))) := isOkE_map
            rw [hgoal]
            apply seqE_ok_of_all
            intro e he
            rcases List.mem_map.mp he with ⟨it, hit, rfl⟩
            have hdep : pyDepth it ≤ pyDepthL items := mem_depthL hit
            have hD : pyDepth (PyVal.dict [(ps "L", PyVal.list items)]) =
                1 + Nat.max (1 + pyDepthL items) 0 := rfl
            rw [nat_max_zero] at hD
            rw [hD] at hd
            exact ih it (by omega) (isAttrL_mem hitems hit)
          | str s => exact absurd hattr' (by simp [isAttrPayload])
          | int n' => exact absurd hattr' (by simp [isAttrPayload])
          | bool b => exact absurd hattr' (by simp [isAttrPayload])
          | none => exact absurd hattr' (by simp [isAttrPayload])
          | dict kvs' => exact absurd hattr' (by simp [isAttrPayload])
        by_cases hSS : k = ps "SS"
        · subst hSS
          have hattr' : isList w = true := hattr
          cases w with
          | list items => rfl
          | str s => exact absurd hattr' (by simp [isList])
          | int n' => exact absurd hattr' (by simp [isList])
          | bool b => exact absurd hattr' (by simp [isList])
          | none => exact absurd hattr' (by simp [isList])
          | dict kvs' => exact absurd hattr' (by simp [isList])
        by_cases hNS : k = ps "NS"
        · subst hNS
          have hattr' : isList w = true := hattr
          cases w with
          | list items => rfl
          | str s => exact absurd hattr' (by simp [isList])
          | int n' => exact absurd hattr' (by simp [isList])
          | bool b => exact absurd hattr' (by simp [isList])
          | none => exact absurd hattr' (by simp [isList])
          | dict kvs' => exact absurd hattr' (by simp [isList])
        · have hkey' : hasTagKey [(k, w)] = false := by
            simp [hasTagKey, tagKeys, hS, hN, hB, hL, hSS, hNS]
          have a1 := hasTagKey_false_lookup hkey' (show ps "S" ∈ tagKeys by simp [tagKeys])
          have a2 := hasTagKey_false_lookup hkey' (show ps "N" ∈ tagKeys by simp [tagKeys])
          have a3 := hasTagKey_false_lookup hkey' (show ps "BOOL" ∈ tagKeys by simp [tagKeys])
          have a4 := hasTagKey_false_lookup hkey' (show ps "L" ∈ tagKeys by simp [tagKeys])
          have a5 := hasTagKey_false_lookup hkey' (show ps "SS" ∈ tagKeys by simp [tagKeys])
          have a6 := hasTagKey_false_lookup hkey' (show ps "NS" ∈ tagKeys by simp [tagKeys])
          simp only [extractFuel]
          rw [a1, a2, a3, a4, a5, a6]
          rfl
      | (k1, w1) :: (k2, w2) :: tl =>
        have hkey : (!hasTagKey ((k1, w1) :: (k2, w2) :: tl)) = true := hattr
        have hkey' : hasTagKey ((k1, w1) :: (k2, w2) :: tl) = false := by
          simpa using hkey
        have a1 := hasTagKey_false_lookup hkey' (show ps "S" ∈ tagKeys by simp [tagKeys])
        have a2 := hasTagKey_false_lookup hkey' (show ps "N" ∈ tagKeys by simp [tagKeys])
        have a3 := hasTagKey_false_lookup hkey' (show ps "BOOL" ∈ tagKeys by simp [tagKeys])
        have a4 := hasTagKey_false_lookup hkey' (show ps "L" ∈ tagKeys by simp [tagKeys])
        have a5 := hasTagKey_false_lookup hkey' (show ps "SS" ∈ tagKeys by simp [tagKeys])
        have a6 := hasTagKey_false_lookup hkey' (show ps "NS" ∈ tagKeys by simp [tagKeys])
        simp only [extractFuel]
        rw [a1, a2, a3, a4, a5, a6]
        rfl

theorem extract_ok_of_isAttr (v : PyVal) (h : isAttr v = true) :
    isOkE (extract_dynamodb_value v) = true :=
  extractFuel_ok (pyDepth v + 1) v (by omega) h

theorem bindE_ok {α β : Type} (a : α) (f : α → Except String β) :
    (Except.ok a >>= f) = f a := rfl

theorem bindE_err {α β : Type} (e : String) (f : α → Except String β) :
    ((Except.error e : Except String α) >>= f) = Except.error e := rfl

/-- The claim's description of name resolution: walk the candidate
fields in order; for each one present, extract its value; return the
first non-empty (truthy) extracted value; `none` when no candidate
yields one. -/
def specNameResolution : List PStr → Reg → Except String (Option PyVal)
  | [], _ => .ok Option.none
  | f :: fs, reg =>
    match alookup f reg with
    | some v => do
      let u ← extract_dynamodb_value v
      if pyTruthy u then pure (some u) else specNameResolution fs reg
    | Option.none => specNameResolution fs reg

theorem probeFields_spec : ∀ (fs : List PStr) (reg : Reg) (acc : PyVal),
    pyTruthy acc = false →
    (probeFields fs reg acc).map
        (fun u => if pyTruthy u then some u else Option.none) =
      specNameResolution fs reg
  | [], reg, acc, h => by
    simp only [probeFields, specNameResolution, Except.map, h]
    rfl
  | f :: fs, reg, acc, h => by
    simp only [probeFields, specNameResolution]
    cases hv : alookup f reg with
    | none => exact probeFields_spec fs reg acc h
    | some v =>
      dsimp only
      cases he : extract_dynamodb_value v with
      | error e => rfl
      | ok u =>
        rw [bindE_ok, bindE_ok]
        by_cases ht : pyTruthy u = true
        · rw [if_pos ht, if_pos ht]
          simp [Except.map, ht]
          rfl
        · have ht' : pyTruthy u = false := by simpa using ht
          rw [if_neg ht, if_neg ht]
          exact probeFields_spec fs reg u ht'

theorem resolve_after (e : Except String PyVal) (cap : PyVal → PStr) :
    (e >>= fun u => if pyTruthy u then Except.ok (some (cap u))
        else Except.ok Option.none) =
      (e.map (fun u => if pyTruthy u then some u else Option.none)).map
        (Option.map cap) := by
  cases e with
  | error msg => rfl
  | ok u =>
    by_cases h : pyTruthy u = true
    · simp [Except.map, bindE_ok, h]
    · have h' : pyTruthy u = false := by simpa using h
      simp [Except.map, bindE_ok, h']

/-- Claim C1 counterexample: a registration whose only field is
`full_name`, with the non-empty value `"Bob"`, resolves to no name and
contributes no attendee — the primary field the code consults is
`nomeCompleto`, not `full_name`, and `full_name` is not among the
fallback fields either. -/
theorem C1_counterexample_full_name :
    resolveName [(ps "full_name", PyVal.str (ps "Bob"))] = .ok Option.none
    ∧ gamersParticipants [[(ps "full_name", PyVal.str (ps "Bob"))]] = .ok [] :=
  ⟨rfl, rfl⟩

/-- Claim C1 (amended): for every raw registration, name resolution
attempts the field `nomeCompleto` first; if that field is absent or its
extracted value is empty (falsy), it probes the fallback fields `name`,
`userName`, `user_name`, `nome`, `username`, `Name`, `UserName` in that
order and takes the first non-empty extracted value (rendered with
`str` and capitalized); if none yields a non-empty value, the
registration contributes no attendee. -/
theorem C1_name_resolution :
    (∀ reg : Reg, resolveName reg =
      (specNameResolution (ps "nomeCompleto" :: nameFallbackFields) reg).map
        (Option.map (fun u => capitalize_name (pyStr u))))
    ∧ (∀ reg : Reg, resolveName reg = .ok Option.none →
        (∀ ug : UG, processReg ug reg = .ok ug) ∧
        (∀ acc : List PStr, gamerStep acc reg = .ok acc)) := by
  constructor
  · intro reg
    simp only [resolveName]
    rw [specNameResolution]
    cases hv : alookup (ps "nomeCompleto") reg with
    | none =>
      dsimp only
      rw [bindE_ok, if_neg (by decide : ¬ pyTruthy PyVal.none = true)]
      rw [resolve_after, probeFields_spec nameFallbackFields reg PyVal.none rfl]
    | some v =>
      dsimp only
      cases he : extract_dynamodb_value v with
      | error e => rfl
      | ok u0 =>
        rw [bindE_ok, bindE_ok]
        by_cases ht : pyTruthy u0 = true
        · rw [if_pos ht, if_pos ht, bindE_ok, if_pos ht]
          rfl
        · have ht' : pyTruthy u0 = false := by simpa using ht
          rw [if_neg ht, if_neg ht]
          rw [resolve_after, probeFields_spec nameFallbackFields reg u0 ht']
  · intro reg hres
    constructor
    · intro ug
      simp only [processReg, hres, bindE_ok]
      rfl
    · intro acc
      simp only [gamerStep, hres, bindE_ok]
      rfl

/-- Claim C1 witness: concrete registrations exercising the amended
resolution theorem. -/
theorem C1_name_resolution_witness :
    processReg [] [(ps "full_name", PyVal.str (ps "Ada"))] = .ok []
    ∧ gamerStep [] [(ps "full_name", PyVal.str (ps "Ada"))] = .ok [] := by
  have h := C1_name_resolution.2 [(ps "full_name", PyVal.str (ps "Ada"))] rfl
  exact ⟨h.1 [], h.2 []⟩

/-- Claim C2 counterexample: an unrecognized single-key dict whose
payload is itself a tagged value is returned as-is by the normalizer,
so the result is not free of tag wrappers. -/
theorem C2_counterexample_tagged_result :
    extract_dynamodb_value
        (PyVal.dict [(ps "Z", PyVal.dict [(ps "S", PyVal.str (ps "x"))])]) =
      .ok (PyVal.dict [(ps "S", PyVal.str (ps "x"))])
    ∧ tagFree (PyVal.dict [(ps "S", PyVal.str (ps "x"))]) = false :=
  ⟨rfl, rfl⟩

/-- Claim C2 (amended): for every attribute value of the enumerated
shapes the normalizer returns the wrapped payload — string, number and
boolean tags return the payload as-is; a list tag recurses
element-wise; string-set and number-set tags return the payload list;
an unrecognized non-empty dict returns its first payload value
unchanged (which may itself still carry a tag wrapper); an empty dict
returns null; an untagged non-dict value is returned unchanged — and on
every value of one of these shapes the normalizer returns successfully
(never raises). -/
theorem C2_extract_normalizes :
    (∀ v, extract_dynamodb_value (PyVal.dict [(ps "S", v)]) = .ok v)
    ∧ (∀ v, extract_dynamodb_value (PyVal.dict [(ps "N", v)]) = .ok v)
    ∧ (∀ v, extract_dynamodb_value (PyVal.dict [(ps "BOOL", v)]) = .ok v)
    ∧ (∀ items, extract_dynamodb_value (PyVal.dict [(ps "L", PyVal.list items)]) =
        (seqE (items.map extract_dynamodb_value)).map PyVal.list)
    ∧ (∀ items, extract_dynamodb_value (PyVal.dict [(ps "SS", PyVal.list items)]) =
        .ok (PyVal.list items))
    ∧ (∀ items, extract_dynamodb_value (PyVal.dict [(ps "NS", PyVal.list items)]) =
        .ok (PyVal.list items))
    ∧ (∀ (k : PStr) (v : PyVal) (rest : List (PStr × PyVal)),
        hasTagKey ((k, v) :: rest) = false →
        extract_dynamodb_value (PyVal.dict ((k, v) :: rest)) = .ok v)
    ∧ (extract_dynamodb_value (PyVal.dict []) = .ok PyVal.none)
    ∧ (∀ v, isDict v = false → extract_dynamodb_value v = .ok v)
    ∧ (∀ v, isAttr v = true → isOkE (extract_dynamodb_value v) = true) :=
  ⟨extract_tag_S, extract_tag_N, extract_tag_BOOL, extract_tag_L, extract_tag_SS,
   extract_tag_NS, extract_unknown_dict, extract_empty_dict, extract_nondict,
   extract_ok_of_isAttr⟩

/-- Claim C2 witness: the normalization theorem applied at concrete
inputs. -/
theorem C2_extract_normalizes_witness :
    extract_dynamodb_value
        (PyVal.dict [(ps "Z", PyVal.str (ps "y")), (ps "W", PyVal.bool true)]) =
      .ok (PyVal.str (ps "y"))
    ∧ isOkE (extract_dynamodb_value (PyVal.dict [(ps "L",
        PyVal.list [PyVal.dict [(ps "S", PyVal.str (ps "a"))]])])) = true := by
  constructor
  · exact C2_extract_normalizes.2.2.2.2.2.2.1 (ps "Z") (PyVal.str (ps "y"))
      [(ps "W", PyVal.bool true)] (by decide)
  · exact C2_extract_normalizes.2.2.2.2.2.2.2.2.2 _ (by decide)

theorem bindE_pure {α β : Type} (a : α) (f : α → Except String β) :
    ((pure a : Except String α) >>= f) = f a := rfl

/-- Claim C3: the games field "Azul, Dixit;; Coup\nAzul" of a single
registration parses to exactly ["Azul", "Dixit", "Coup"]: tokens split
on runs of comma, semicolon or newline, trimmed, empty tokens dropped,
the duplicate "Azul" deduplicated, first-seen order kept. -/
theorem C3_games_parsing_example :
    process_registrations
        [[(ps "nomeCompleto", PyVal.str (ps "Ana")),
          (ps "jogos", PyVal.str (ps "Azul, Dixit;; Coup\nAzul"))]] =
      .ok [(ps "Ana", [ps "Azul", ps "Dixit", ps "Coup"])] := rfl

/-- Claim C4: a games field whose string value strips to the empty
string or to a case-insensitive "N/A" parses to no games, and such a
registration leaves the attendee-to-games map unchanged. -/
theorem C4_na_or_empty_games :
    ∀ (s : PStr) (reg : Reg) (v : PyVal) (r : Option PStr) (ug : UG),
      alookup (ps "jogos") reg = some v →
      extract_dynamodb_value v = .ok (PyVal.str s) →
      (strip s = [] ∨ upper (strip s) = ps "N/A") →
      resolveName reg = .ok r →
      parseGames (PyVal.str s) = [] ∧ processReg ug reg = .ok ug := by
  intro s reg v r ug hj he hcond hres
  have hparse : parseGames (PyVal.str s) = [] := by
    simp only [parseGames]
    rw [if_neg]
    rintro ⟨h1, h2⟩
    rcases hcond with hc | hc
    · exact h1 hc
    · exact h2 hc
  refine ⟨hparse, ?_⟩
  simp only [processReg, hres, bindE_ok]
  cases r with
  | none => rfl
  | some name =>
    dsimp only
    simp only [regGames, hj]
    rw [he, bindE_ok, bindE_pure, hparse, if_pos rfl]
    rfl

/-- Claim C4 witness: a whitespace-padded lowercase "n/a" games field on
a named registration contributes nothing. -/
theorem C4_na_or_empty_games_witness :
    parseGames (PyVal.str (ps " n/a ")) = []
    ∧ processReg [] [(ps "nomeCompleto", PyVal.str (ps "Bea")),
        (ps "jogos", PyVal.str (ps " n/a "))] = .ok [] :=
  C4_na_or_empty_games (ps " n/a ")
    [(ps "nomeCompleto", PyVal.str (ps "Bea")), (ps "jogos", PyVal.str (ps " n/a "))]
    (PyVal.str (ps " n/a ")) (some (ps "Bea")) []
    rfl rfl (Or.inr (by decide)) rfl

/-- The claim's merge result: the union of the game titles in first-seen
order, duplicates dropped on exact string equality. -/
def firstSeenUnion (l : List PStr) : List PStr :=
  l.foldl (fun acc x => if x ∈ acc then acc else acc ++ [x]) []

theorem dGet_single (n : PStr) (acc : List PStr) : dGet [(n, acc)] n = acc := by
  simp [dGet, alookup]

theorem dSet_single (n : PStr) (acc l : List PStr) :
    dSet [(n, acc)] n l = [(n, l)] := by
  simp [dSet]

theorem addGame_single (n : PStr) (acc : List PStr) (g : PStr)
    (hg : strip g = g) (hne : g ≠ []) :
    addGame [(n, acc)] n g = [(n, if g ∈ acc then acc else acc ++ [g])] := by
  simp only [addGame, hg, dGet_single]
  by_cases hmem : g ∈ acc
  · rw [if_neg (fun h => h.2 hmem), if_pos hmem]
  · rw [if_pos ⟨hne, hmem⟩, if_neg hmem, dSet_single]

theorem addGame_nil (n : PStr) (g : PStr) (hg : strip g = g) (hne : g ≠ []) :
    addGame [] n g = [(n, [g])] := by
  simp only [addGame, hg]
  rw [if_pos ⟨hne, by simp [dGet, alookup]⟩]
  rfl

theorem foldl_addGame_single (n : PStr) :
    ∀ (gs : List PStr) (acc : List PStr),
      (∀ x ∈ gs, strip x = x ∧ x ≠ []) →
      gs.foldl (fun u g => addGame u n g) [(n, acc)] =
        [(n, gs.foldl (fun a x => if x ∈ a then a else a ++ [x]) acc)]
  | [], acc, _ => rfl
  | g :: gs, acc, hw => by
    have hg := hw g (List.mem_cons_self g gs)
    simp only [List.foldl_cons]
    rw [addGame_single n acc g hg.1 hg.2]
    exact foldl_addGame_single n gs _ (fun x hx => hw x (List.mem_cons_of_mem _ hx))

theorem foldl_addGame_nil (n : PStr) (gs : List PStr)
    (hw : ∀ x ∈ gs, strip x = x ∧ x ≠ []) (hne : gs ≠ []) :
    gs.foldl (fun u g => addGame u n g) [] = [(n, firstSeenUnion gs)] := by
  cases gs with
  | nil => exact absurd rfl hne
  | cons g rest =>
    have hg := hw g (List.mem_cons_self g rest)
    simp only [List.foldl_cons, firstSeenUnion]
    rw [addGame_nil n g hg.1 hg.2]
    have := foldl_addGame_single n rest [g]
      (fun x hx => hw x (List.mem_cons_of_mem _ hx))
    rw [this]
    rfl

theorem regGames_mem {reg : Reg} {g : List PStr}
    (h : regGames reg = .ok g) : ∀ x ∈ g, strip x = x ∧ x ≠ [] := by
  intro x hx
  unfold regGames at h
  cases hj : alookup (ps "jogos") reg with
  | none =>
    rw [hj] at h
    cases h
    simp at hx
  | some v =>
    rw [hj] at h
    dsimp only at h
    cases he : extract_dynamodb_value v with
    | error e => rw [he] at h; cases h
    | ok raw =>
      rw [he, bindE_ok] at h
      cases h
      exact parseGames_mem hx

theorem processReg_named (ug : UG) (reg : Reg) (n : PStr) (g : List PStr)
    (hres : resolveName reg = .ok (some n)) (hg : regGames reg = .ok g) :
    processReg ug reg =
      .ok (if g = [] then ug else g.foldl (fun u x => addGame u n x) ug) := by
  simp only [processReg, hres, bindE_ok]
  rw [hg, bindE_ok]
  by_cases h : g = []
  · rw [if_pos h, if_pos h]; rfl
  · rw [if_neg h, if_neg h]; rfl

/-- Claim C5: two registrations resolving to the same display name have
their parsed game lists merged into the union in first-seen order
(input order, then token order), duplicates dropped only on exact
string equality. -/
theorem C5_merge_same_name :
    ∀ (reg1 reg2 : Reg) (n : PStr) (g1 g2 : List PStr),
      resolveName reg1 = .ok (some n) →
      resolveName reg2 = .ok (some n) →
      regGames reg1 = .ok g1 →
      regGames reg2 = .ok g2 →
      process_registrations [reg1, reg2] =
        .ok (if g1 ++ g2 = [] then [] else [(n, firstSeenUnion (g1 ++ g2))]) := by
  intro reg1 reg2 n g1 g2 hr1 hr2 hg1 hg2
  have hw1 := regGames_mem hg1
  have hw2 := regGames_mem hg2
  simp only [process_registrations, processRegsFrom]
  rw [processReg_named [] reg1 n g1 hr1 hg1, bindE_ok,
    processReg_named _ reg2 n g2 hr2 hg2, bindE_ok]
  by_cases h1 : g1 = []
  · subst h1
    rw [if_pos rfl]
    by_cases h2 : g2 = []
    · subst h2
      rfl
    · rw [if_neg h2, foldl_addGame_nil n g2 hw2 h2, List.nil_append, if_neg h2]
  · rw [if_neg h1, foldl_addGame_nil n g1 hw1 h1]
    by_cases h2 : g2 = []
    · subst h2
      rw [if_pos rfl, List.append_nil, if_neg h1]
    · rw [if_neg h2, foldl_addGame_single n g2 (firstSeenUnion g1) hw2,
        if_neg (show ¬ g1 ++ g2 = [] by simp [h1])]
      rw [show firstSeenUnion (g1 ++ g2) =
        g2.foldl (fun a x => if x ∈ a then a else a ++ [x]) (firstSeenUnion g1) by
          simp [firstSeenUnion, List.foldl_append]]

/-- Claim C5 witness: two registrations for the same attendee with
overlapping game lists merge without duplicating the shared title. -/
theorem C5_merge_same_name_witness :
    process_registrations
        [[(ps "nomeCompleto", PyVal.str (ps "Ana")),
          (ps "jogos", PyVal.str (ps "Azul, Coup"))],
         [(ps "nomeCompleto", PyVal.str (ps "ana")),
          (ps "jogos", PyVal.str (ps "Coup, Dixit"))]] =
      .ok [(ps "Ana", [ps "Azul", ps "Coup", ps "Dixit"])] := by
  have h := C5_merge_same_name
    [(ps "nomeCompleto", PyVal.str (ps "Ana")), (ps "jogos", PyVal.str (ps "Azul, Coup"))]
    [(ps "nomeCompleto", PyVal.str (ps "ana")), (ps "jogos", PyVal.str (ps "Coup, Dixit"))]
    (ps "Ana") [ps "Azul", ps "Coup"] [ps "Coup", ps "Dixit"]
    rfl rfl rfl rfl
  rw [h]
  rfl

/-- The number carried by a numbered game line, if any. -/
def lineNum : LLine → Option Nat
  | .game n _ => some n
  | _ => Option.none

/-- The number of numbered lines emitted for the real attendees, in the
order the listing walks them. -/
def listingTotalGames (ug : UG) : Nat :=
  ((sortStr (ug.map Prod.fst)).map (fun u => (dGet ug u).length)).sum

theorem range'_append_one (s m n : Nat) :
    List.range' s m ++ List.range' (s + m) n = List.range' s (m + n) := by
  have h := List.range'_append s m n 1
  rw [Nat.one_mul] at h
  rw [Nat.add_comm m n]
  exact h

theorem gameLines_nums : ∀ (gs : List PStr) (c : Nat),
    (gameLines c gs).filterMap lineNum = List.range' c gs.length
  | [], c => rfl
  | g :: gs, c => by
    simp only [gameLines, List.filterMap_cons, lineNum]
    rw [gameLines_nums gs (c + 1)]
    rfl

theorem userBlocks_spec : ∀ (us : List PStr) (c : Nat) (ug : UG),
    (userBlocks c us ug).1.filterMap lineNum =
      List.range' c ((us.map (fun u => (dGet ug u).length)).sum)
    ∧ (userBlocks c us ug).2 = c + (us.map (fun u => (dGet ug u).length)).sum
  | [], c, ug => ⟨rfl, rfl⟩
  | u :: us, c, ug => by
    have ih := userBlocks_spec us (c + (sortStr (dGet ug u)).length) ug
    constructor
    · simp only [userBlocks, List.filterMap_cons, List.filterMap_append, lineNum,
        List.filterMap_nil]
      rw [gameLines_nums, ih.1, sortStr_length, List.append_nil, range'_append_one]
      simp [List.map_cons, List.sum_cons]
    · simp only [userBlocks]
      rw [ih.2, sortStr_length]
      simp [List.map_cons, List.sum_cons]
      omega

/-- Claim C6: the numbered lines of the games listing carry the numbers
1, 2, 3, ... consecutively across the whole file, continuing without
reset from the attendees' games through the fixed catalog. -/
theorem C6_listing_counter (ug : UG) :
    (listingLines ug).filterMap lineNum =
      List.range' 1 (listingTotalGames ug + fixed_games.length) := by
  simp only [listingLines]
  rw [if_pos (by decide : fixed_games ≠ [])]
  have hu := userBlocks_spec (sortStr (ug.map Prod.fst)) 1 ug
  simp only [List.filterMap_append, List.filterMap_cons, lineNum,
    List.filterMap_nil]
  rw [hu.1, gameLines_nums, hu.2]
  simp only [List.nil_append, List.append_nil]
  rw [range'_append_one]
  rfl

theorem gamerStep_none {reg : Reg} (acc : List PStr)
    (h : resolveName reg = .ok Option.none) : gamerStep acc reg = .ok acc := by
  simp only [gamerStep, h, bindE_ok]
  rfl

theorem gamerStep_some {reg : Reg} {n : PStr} (acc : List PStr)
    (h : resolveName reg = .ok (some n)) :
    gamerStep acc reg = .ok (if n ∈ acc then acc else acc ++ [n]) := by
  simp only [gamerStep, h, bindE_ok]
  rfl

theorem gamerStep_err {reg : Reg} {e : String} (acc : List PStr)
    (h : resolveName reg = .error e) : gamerStep acc reg = .error e := by
  simp only [gamerStep, h, bindE_err]

theorem gamersFrom_spec : ∀ (regs : List Reg) (acc res : List PStr),
    gamersFrom acc regs = .ok res →
    (acc.Nodup → res.Nodup)
    ∧ (∀ n, n ∈ res ↔ n ∈ acc ∨ ∃ reg ∈ regs, resolveName reg = .ok (some n))
  | [], acc, res, h => by
    cases h
    exact ⟨fun hn => hn, fun n => by simp⟩
  | reg :: regs, acc, res, h => by
    simp only [gamersFrom] at h
    cases hres : resolveName reg with
    | error e =>
      rw [gamerStep_err acc hres, bindE_err] at h
      cases h
    | ok r =>
      cases r with
      | none =>
        rw [gamerStep_none acc hres, bindE_ok] at h
        have ih := gamersFrom_spec regs acc res h
        refine ⟨ih.1, fun n => ?_⟩
        rw [ih.2 n]
        constructor
        · rintro (hn | ⟨reg', hr', hn⟩)
          · exact Or.inl hn
          · exact Or.inr ⟨reg', List.mem_cons_of_mem _ hr', hn⟩
        · rintro (hn | ⟨reg', hr', hn⟩)
          · exact Or.inl hn
          · rcases List.mem_cons.mp hr' with rfl | hr''
            · rw [hres] at hn
              cases hn
            · exact Or.inr ⟨reg', hr'', hn⟩
      | some m =>
        rw [gamerStep_some acc hres, bindE_ok] at h
        have ih := gamersFrom_spec regs (if m ∈ acc then acc else acc ++ [m]) res h
        constructor
        · intro hn
          apply ih.1
          by_cases hm : m ∈ acc
          · rwa [if_pos hm]
          · rw [if_neg hm]
            refine List.Nodup.append hn (List.nodup_singleton m) ?_
            intro a ha ha'
            have haeq : a = m := by simpa using ha'
            exact hm (haeq ▸ ha)
        · intro n
          rw [ih.2 n]
          have hacc : n ∈ (if m ∈ acc then acc else acc ++ [m]) ↔ n ∈ acc ∨ n = m := by
            by_cases hm : m ∈ acc
            · rw [if_pos hm]
              constructor
              · exact Or.inl
              · rintro (hn | rfl)
                · exact hn
                · exact hm
            · rw [if_neg hm]
              simp
          rw [hacc]
          constructor
          · rintro ((hn | rfl) | ⟨reg', hr', hn⟩)
            · exact Or.inl hn
            · exact Or.inr ⟨reg, List.mem_cons_self reg regs, hres⟩
            · exact Or.inr ⟨reg', List.mem_cons_of_mem _ hr', hn⟩
          · rintro (hn | ⟨reg', hr', hn⟩)
            · exact Or.inl (Or.inl hn)
            · rcases List.mem_cons.mp hr' with rfl | hr''
              · rw [hres] at hn
                cases hn
                exact Or.inl (Or.inr rfl)
              · exact Or.inr ⟨reg', hr'', hn⟩

/-- Claim C7: the attendee roster lists each distinct resolved
(capitalized) display name exactly once — registrations with no games
included — with no repetition, sorted lexicographically. -/
theorem C7_roster (regs : List Reg) (parts : List PStr)
    (h : gamersParticipants regs = .ok parts) :
    generate_gamers_list regs =
      .ok (((sortStr parts).map (fun p => p ++ ['\n'])).flatten)
    ∧ (sortStr parts).Nodup
    ∧ List.Sorted strLeP (sortStr parts)
    ∧ (∀ n, n ∈ sortStr parts ↔ ∃ reg ∈ regs, resolveName reg = .ok (some n)) := by
  have spec := gamersFrom_spec regs [] parts h
  refine ⟨?_, sortStr_nodup (spec.1 List.nodup_nil), sortStr_sorted parts, ?_⟩
  · simp only [generate_gamers_list, gamersParticipants] at h ⊢
    rw [h, bindE_ok]
    rfl
  · intro n
    rw [sortStr_mem, spec.2 n]
    simp only [List.not_mem_nil, false_or]

/-- Claim C7 witness: two single-field registrations produce a sorted,
duplicate-free roster. -/
theorem C7_roster_witness :
    generate_gamers_list [[(ps "nomeCompleto", PyVal.str (ps "bob"))],
        [(ps "nome", PyVal.str (ps "al"))]] = .ok (ps "Al\nBob\n")
    ∧ (sortStr [ps "Bob", ps "Al"]).Nodup := by
  have h := C7_roster
    [[(ps "nomeCompleto", PyVal.str (ps "bob"))], [(ps "nome", PyVal.str (ps "al"))]]
    [ps "Bob", ps "Al"] rfl
  constructor
  · rw [h.1]
    rfl
  · exact h.2.1

theorem csvRowCells_length : ∀ (fields : List PStr) (reg : Reg) (row : List PStr),
    csvRowCells fields reg = .ok row → row.length = fields.length
  | [], _, row, h => by cases h; rfl
  | f :: fs, reg, row, h => by
    simp only [csvRowCells] at h
    cases hc : csvCellE reg f with
    | error e => rw [hc, bindE_err] at h; cases h
    | ok cell =>
      rw [hc, bindE_ok] at h
      cases hr : csvRowCells fs reg with
      | error e => rw [hr, bindE_err] at h; cases h
      | ok rest =>
        rw [hr, bindE_ok] at h
        cases h
        simp only [List.length_cons]
        rw [csvRowCells_length fs reg rest hr]

theorem csvRows_spec (fields : List PStr) :
    ∀ (regs : List Reg) (rows : List (List PStr)),
      csvRows fields regs = .ok rows →
      rows.length = regs.length ∧ ∀ row ∈ rows, row.length = fields.length
  | [], rows, h => by
    cases h
    exact ⟨rfl, fun row hrow => by simp at hrow⟩
  | reg :: regs, rows, h => by
    simp only [csvRows] at h
    cases hc : csvRowCells fields reg with
    | error e => rw [hc, bindE_err] at h; cases h
    | ok row =>
      rw [hc, bindE_ok] at h
      cases hr : csvRows fields regs with
      | error e => rw [hr, bindE_err] at h; cases h
      | ok rest =>
        rw [hr, bindE_ok] at h
        cases h
        have ih := csvRows_spec fields regs rest hr
        refine ⟨by simp [ih.1], ?_⟩
        intro r hrm
        rcases List.mem_cons.mp hrm with rfl | hrm'
        · exact csvRowCells_length fields reg r hc
        · exact ih.2 r hrm'

theorem setAdd_foldl_mem : ∀ (ks : List PStr) (acc : List PStr) (x : PStr),
    x ∈ ks.foldl setAdd acc ↔ x ∈ acc ∨ x ∈ ks
  | [], acc, x => by simp
  | k :: ks, acc, x => by
    simp only [List.foldl_cons]
    rw [setAdd_foldl_mem ks (setAdd acc k) x]
    unfold setAdd
    by_cases hk : k ∈ acc
    · rw [if_pos hk]
      simp only [List.mem_cons]
      constructor
      · rintro (h | h)
        · exact Or.inl h
        · exact Or.inr (Or.inr h)
      · rintro (h | (rfl | h))
        · exact Or.inl h
        · exact Or.inl hk
        · exact Or.inr h
    · rw [if_neg hk]
      simp only [List.mem_append, List.mem_cons, List.not_mem_nil, or_false]
      constructor
      · rintro ((h | rfl) | h)
        · exact Or.inl h
        · exact Or.inr (Or.inl rfl)
        · exact Or.inr (Or.inr h)
      · rintro (h | (rfl | h))
        · exact Or.inl (Or.inl h)
        · exact Or.inl (Or.inr rfl)
        · exact Or.inr h

theorem allFieldsList_mem_aux : ∀ (regs : List Reg) (acc : List PStr) (x : PStr),
    x ∈ regs.foldl (fun a reg => (regKeys reg).foldl setAdd a) acc ↔
      x ∈ acc ∨ ∃ reg ∈ regs, x ∈ regKeys reg
  | [], acc, x => by simp
  | reg :: regs, acc, x => by
    simp only [List.foldl_cons]
    rw [allFieldsList_mem_aux regs ((regKeys reg).foldl setAdd acc) x,
      setAdd_foldl_mem]
    constructor
    · rintro ((h | h) | ⟨reg', hr', h⟩)
      · exact Or.inl h
      · exact Or.inr ⟨reg, List.mem_cons_self reg regs, h⟩
      · exact Or.inr ⟨reg', List.mem_cons_of_mem _ hr', h⟩
    · rintro (h | ⟨reg', hr', h⟩)
      · exact Or.inl (Or.inl h)
      · rcases List.mem_cons.mp hr' with rfl | hr''
        · exact Or.inl (Or.inr h)
        · exact Or.inr ⟨reg', hr'', h⟩

theorem allFieldsList_mem {regs : List Reg} {x : PStr} :
    x ∈ allFieldsList regs ↔ ∃ reg ∈ regs, x ∈ regKeys reg := by
  unfold allFieldsList
  rw [allFieldsList_mem_aux]
  simp

theorem mem_orderedFieldsFrom {allF : List PStr} {k : PStr} (hk : k ∈ allF) :
    k ∈ orderedFieldsFrom allF := by
  unfold orderedFieldsFrom
  by_cases hc : k ∈ common_fields
  · apply List.mem_append_left
    exact List.mem_filter.mpr ⟨hc, by simpa⟩
  · apply List.mem_append_right
    rw [sortStr_mem]
    exact List.mem_filter.mpr ⟨hk, by simpa⟩

/-- Claim C8: the CSV has exactly one data row per raw registration
(no deduplication, no name requirement), and every row has one value,
possibly empty, for every column; the columns cover the union of all
field names discovered across the registrations. -/
theorem C8_csv_rows (regs : List Reg) (msgs : List PStr) (fields : List PStr)
    (rows : List (List PStr))
    (h : generate_csv regs = .ok (msgs, some (fields, rows))) :
    rows.length = regs.length
    ∧ (∀ row ∈ rows, row.length = fields.length)
    ∧ (∀ reg ∈ regs, ∀ k ∈ regKeys reg, k ∈ fields) := by
  unfold generate_csv at h
  by_cases he : regs.isEmpty
  · rw [if_pos he] at h
    simp at h
  · rw [if_neg he] at h
    unfold generate_csvWith at h
    cases hr : csvRows (orderedFieldsFrom (allFieldsList regs)) regs with
    | error e => rw [hr, bindE_err, bindE_err] at h; cases h
    | ok rows' =>
      rw [hr, bindE_ok, bindE_ok] at h
      simp only [Except.ok.injEq, Prod.mk.injEq, Option.some.injEq] at h
      obtain ⟨_, hf, hrows⟩ := h
      subst hf
      subst hrows
      have hs := csvRows_spec _ regs rows' hr
      refine ⟨hs.1, hs.2, ?_⟩
      intro reg hreg k hk
      apply mem_orderedFieldsFrom
      exact allFieldsList_mem.mpr ⟨reg, hreg, hk⟩

/-- Claim C8 witness: two one-field registrations with different fields
give two rows, each with a (possibly empty) value for both columns. -/
theorem C8_csv_rows_witness :
    ([[ps "1", []], [[], ps "True"]] : List (List PStr)).length =
      [[(ps "a", PyVal.str (ps "1"))], [(ps "b", PyVal.bool true)]].length
    ∧ (∀ row ∈ ([[ps "1", []], [[], ps "True"]] : List (List PStr)),
        row.length = [ps "a", ps "b"].length)
    ∧ (∀ reg ∈ [[(ps "a", PyVal.str (ps "1"))], [(ps "b", PyVal.bool true)]],
        ∀ k ∈ regKeys reg, k ∈ [ps "a", ps "b"]) :=
  C8_csv_rows [[(ps "a", PyVal.str (ps "1"))], [(ps "b", PyVal.bool true)]]
    [] [ps "a", ps "b"] [[ps "1", []], [[], ps "True"]] rfl

/-- Claim C9: the generators are pure functions of the processed data;
in particular the CSV column order does not depend on the enumeration
order of the field-name set: any permutation of the accumulated field
set yields the same ordered columns and the same CSV. -/
theorem C9_determinism (regs : List Reg) (l : List PStr)
    (hperm : List.Perm l (allFieldsList regs)) :
    orderedFieldsFrom l = orderedFieldsFrom (allFieldsList regs)
    ∧ generate_csvWith l regs = generate_csvWith (allFieldsList regs) regs := by
  have hfields : orderedFieldsFrom l = orderedFieldsFrom (allFieldsList regs) := by
    unfold orderedFieldsFrom
    congr 1
    · apply List.filter_congr
      intro f _
      simp only [decide_eq_decide]
      exact hperm.mem_iff
    · apply sortStr_eq_of_perm
      exact hperm.filter _
  refine ⟨hfields, ?_⟩
  unfold generate_csvWith
  rw [hfields]

/-- Claim C9 witness: reversing the enumeration of the field set leaves
the ordered columns and the CSV unchanged. -/
theorem C9_determinism_witness :
    orderedFieldsFrom [ps "a", ps "b"] =
      orderedFieldsFrom (allFieldsList [[(ps "b", PyVal.str (ps "x")),
        (ps "a", PyVal.str (ps "y"))]])
    ∧ generate_csvWith [ps "a", ps "b"] [[(ps "b", PyVal.str (ps "x")),
        (ps "a", PyVal.str (ps "y"))]] =
      generate_csvWith (allFieldsList [[(ps "b", PyVal.str (ps "x")),
        (ps "a", PyVal.str (ps "y"))]]) [[(ps "b", PyVal.str (ps "x")),
        (ps "a", PyVal.str (ps "y"))]] :=
  C9_determinism [[(ps "b", PyVal.str (ps "x")), (ps "a", PyVal.str (ps "y"))]]
    [ps "a", ps "b"] (by decide)

/-- Claim C10: on an empty registration list the CSV generator prints a
diagnostic and produces no file, the run is not a failure, and the
remaining generators still run (the listing still carries the fixed
catalog, the roster and attendance lists are empty). -/
theorem C10_empty_input_csv :
    runPipeline [] = .ok (generate_listing [], [],
      ([ps "No registrations to export."], Option.none), []) := rfl
